import Mathlib

/-
Verification of the konfig3 configuration-language translator (src/main.py).

The development shallowly embeds the two core components of main.py:

  * `Lexer.generate_tokens` (main.py lines 30-59): a regex-driven scanner with
    stateful block-comment handling, embedded here as `Konfig.lexLoop` over a
    list of characters, with `Konfig.match1` playing the role of the compiled
    alternation `token_regex` (first-alternative-wins, greedy repetition, and
    the final MISMATCH alternative given by the dot pattern that matches every
    character except a newline).
  * `Parser` (main.py lines 61-139): a recursive-descent parser with a position
    cursor, a `constants` dict and an `ast` list, embedded in suffix-passing
    style: each function receives the remaining token list (the tokens from
    `self.position` on) and returns the remaining suffix together with a length
    bound used only for termination.  Out-of-range accesses
    `self.tokens[self.position]` raise an (uncaught) IndexError in Python and
    are modelled by the distinguished error `ParseErr.indexError`.

Error values are modelled by their kind plus the payload interpolated into the
Python message; the transient character/token offsets of the messages are not
retained, mirroring the spec's remark that offsets are presentation context.

A second, heap-passing embedding (`Konfig.HVal`, `Konfig.hparse`) at the end of
the parser section records Python's object identity for lists: arrays live in
an explicit heap and values that are lists are addresses.  It is used to settle
the aliasing/deep-copy questions, which the pure embedding cannot express.
-/

namespace Konfig

/-- Token kinds, one per named group of `token_specification` (main.py 12-27). -/
inductive TokKind where
  | COMMENT_START
  | COMMENT_END
  | ASSIGN
  | SEMICOLON
  | EVAL_START
  | EVAL_END
  | ARRAY_START
  | ARRAY_END
  | COMMA
  | NUMBER
  | STRING
  | NAME
  | SKIP
  | MISMATCH
deriving DecidableEq

/-- A token is a pair (kind, matched text), as appended at main.py line 57. -/
abbrev Tok := TokKind × String

/-- Lexer failures (the four `raise SyntaxError` sites of `generate_tokens`).
`regexFail` is the branch at main.py line 44 taken when `pattern.match`
returns `None`; `invalidChar` is the MISMATCH branch at line 55 and carries
the offending text. -/
inductive LexErr where
  | unterminatedComment
  | regexFail
  | unmatchedCommentEnd
  | invalidChar (s : String)
deriving DecidableEq

/-- The character class of the regex fragment `[A-Z]`. -/
def isUpperAZ (c : Char) : Bool := 'A' ≤ c && c ≤ 'Z'

/-- The character class of the regex fragment `\d` (decimal digits). -/
def isDigit09 (c : Char) : Bool := '0' ≤ c && c ≤ '9'

/-- The character class of the regex fragment `[A-Z0-9_]`. -/
def isNameTail (c : Char) : Bool := isUpperAZ c || isDigit09 c || c = '_'

/-- The character class of the regex fragment `[ \t\n]`. -/
def isSkipChar (c : Char) : Bool := c = ' ' || c = '\t' || c = '\n'

/-- Match of the alternative `'[^']*'` after the opening quote: the greedy run
of non-quote characters must be followed by a closing quote; returns the
length of the inner run. -/
def matchString (cs : List Char) : Option Nat :=
  let inner := cs.takeWhile (fun c => c ≠ '\'')
  match cs.drop inner.length with
  | '\'' :: _ => some inner.length
  | _ => none

/-- One step of `pattern.match(self.text, pos)` (main.py line 42): try the
alternatives of `token_specification` in order at the head of `cs` and return
the kind together with the number of characters matched.  `none` is the
regex-failed-to-match outcome; the final alternatives SKIP (`[ \t\n]+`) and
MISMATCH (`.`, which matches every character except a newline) make that
outcome unreachable, which is proved below, not assumed. -/
def match1 : List Char → Option (TokKind × Nat)
  | [] => none
  | '/' :: '*' :: _ => some (.COMMENT_START, 2)
  | '*' :: '/' :: _ => some (.COMMENT_END, 2)
  | ':' :: '=' :: _ => some (.ASSIGN, 2)
  | ';' :: _ => some (.SEMICOLON, 1)
  | '$' :: '(' :: _ => some (.EVAL_START, 2)
  | ')' :: _ => some (.EVAL_END, 1)
  | '<' :: '<' :: _ => some (.ARRAY_START, 2)
  | '>' :: '>' :: _ => some (.ARRAY_END, 2)
  | ',' :: _ => some (.COMMA, 1)
  | c :: rest =>
    if isDigit09 c then some (.NUMBER, 1 + (rest.takeWhile isDigit09).length)
    else if c = '\'' then
      match matchString rest with
      | some n => some (.STRING, n + 2)
      | none =>
        -- With no closing quote the STRING alternative fails; a quote is not
        -- an upper-case letter and not whitespace, so NAME and SKIP fail too,
        -- and the dot of MISMATCH matches the single quote character.
        some (.MISMATCH, 1)
    else if isUpperAZ c then some (.NAME, 1 + (rest.takeWhile isNameTail).length)
    else if isSkipChar c then some (.SKIP, 1 + (rest.takeWhile isSkipChar).length)
    else if c ≠ '\n' then some (.MISMATCH, 1)
    else none

/-- `self.text.find(chr(42) ++ chr(47), pos)` (main.py line 36), returning the
text after the first closing marker instead of its index. -/
def findCommentEnd : List Char → Option (List Char)
  | [] => none
  | c :: rest =>
    if c = '*' ∧ rest.head? = some '/' then some rest.tail
    else findCommentEnd rest

/-- Whether a closing comment marker occurs anywhere in the text; the Boolean
shadow of `findCommentEnd` used to state comment-transparency. -/
def hasCommentEnd : List Char → Bool
  | [] => false
  | c :: rest => (c = '*' && rest.head? == some '/') || hasCommentEnd rest

theorem findCommentEnd_length {cs r : List Char} (h : findCommentEnd cs = some r) :
    r.length + 2 ≤ cs.length := by
  induction cs with
  | nil => simp [findCommentEnd] at h
  | cons c rest ih =>
    rw [findCommentEnd] at h
    split at h
    · rename_i hc
      cases rest with
      | nil => simp at hc
      | cons c2 r2 =>
        simp at hc h
        subst h
        simp
    · have := ih h
      simp
      omega

theorem match1_pos {cs : List Char} {k : TokKind} {n : Nat}
    (h : match1 cs = some (k, n)) : 1 ≤ n := by
  unfold match1 at h
  split at h <;> try (simp_all <;> omega)
  split_ifs at h <;> try (simp_all <;> omega)
  split at h <;> simp_all <;> omega

/-- The scanning loop of `generate_tokens` (main.py 30-59) in suffix-passing
form: `acc` holds `self.tokens` in reverse.  On COMMENT_START the lexer enters
comment mode; Python then re-tests `pos < len(self.text)` before searching for
the closing marker, so a comment opener at the very end of the input makes the
loop exit normally and return the tokens collected so far. -/
def lexLoop (acc : List Tok) : (cs : List Char) → Except LexErr (List Tok)
  | [] => .ok acc.reverse
  | c :: cs' =>
    match h : match1 (c :: cs') with
    | none => .error .regexFail
    | some (k, n) =>
      if k = .COMMENT_START then
        match hr : (c :: cs').drop n with
        | [] => .ok acc.reverse
        | c2 :: cs2 =>
          match hf : findCommentEnd (c2 :: cs2) with
          | none => .error .unterminatedComment
          | some rest2 => lexLoop acc rest2
      else if k = .COMMENT_END then .error .unmatchedCommentEnd
      else if k = .SKIP then lexLoop acc ((c :: cs').drop n)
      else if k = .MISMATCH then .error (.invalidChar (String.mk ((c :: cs').take n)))
      else lexLoop ((k, String.mk ((c :: cs').take n)) :: acc) ((c :: cs').drop n)
termination_by cs => cs.length
decreasing_by
  · have h1 := match1_pos h
    have h2 := findCommentEnd_length hf
    have h3 := congrArg List.length hr
    simp at h2 h3 ⊢
    omega
  · have h1 := match1_pos h
    simp
    omega
  · have h1 := match1_pos h
    simp
    omega

/-- `Lexer.generate_tokens` on a whole input string. -/
def generate_tokens (s : String) : Except LexErr (List Tok) :=
  lexLoop [] s.toList

/-- The dynamic value union of the parser: `int(value)` results, stripped
strings, and Python lists of values (main.py 97, 100, 122). -/
inductive Value where
  | int (n : Nat)
  | str (s : String)
  | arr (elems : List Value)

/-- Parser failures: one constructor per `self.error(...)` call site of
main.py, plus `indexError` for the uncaught Python `IndexError` raised by
`self.tokens[self.position]` when the position is past the end (such an
access occurs unguarded at main.py lines 74, 79, 84, 113, 126 and 130). -/
inductive ParseErr where
  | expectedName
  | expectedAssign
  | expectedSemicolon
  | unexpectedEndOfInput
  | unexpectedToken (s : String)
  | expectedCommaOrArrayEnd
  | expectedEvalName
  | expectedEvalEnd
  | undefinedConstant (name : String)
  | indexError

/-- The `self.constants` dict.  Assignment `self.constants[name] = value` is
modelled by consing the new binding in front; `List.lookup` then sees the
newest binding for a name first, exactly the lookup semantics of the dict. -/
abbrev Consts := List (String × Value)

/-- `self.constants[name] = value` (main.py line 88). -/
def upsert (c : Consts) (name : String) (v : Value) : Consts := (name, v) :: c

/-- `int(value)` on the digit string of a NUMBER token. -/
def pyInt (s : String) : Nat :=
  s.toList.foldl (fun acc c => 10 * acc + (c.toNat - '0'.toNat)) 0

/-- Python `str.strip` with the single-quote character: remove every leading
and every trailing quote character (main.py line 100 is `value.strip` applied
to the quote). -/
def stripQuotes (l : List Char) : List Char :=
  ((l.dropWhile (fun c => c = '\'')).reverse.dropWhile (fun c => c = '\'')).reverse

def pyStrip (s : String) : String := String.mk (stripQuotes s.toList)

/-- `Parser.evaluation` (main.py 124-136) in suffix-passing form.  The input
list starts at the EVAL_START token, which the function itself skips
(`self.position += 1`).  Note the order of checks mirrors the source: the name
token, then the closing parenthesis, and only then the membership test in
`self.constants`; the resolved value is returned as-is (`return
self.constants[name]`, no copy).  The returned suffix carries a length bound
used for the termination of the callers. -/
def evaluation (c : Consts) :
    (ts : List Tok) → Except ParseErr (Value × {r : List Tok // r.length ≤ ts.length})
  | [] => .error .indexError
  | _ :: rest =>
    match rest with
    | [] => .error .indexError
    | (k, name) :: rest1 =>
      match k with
      | .NAME =>
        match rest1 with
        | [] => .error .indexError
        | (k2, _) :: rest2 =>
          match k2 with
          | .EVAL_END =>
            match List.lookup name c with
            | none => .error (.undefinedConstant name)
            | some v => .ok (v, ⟨rest2, by simp only [List.length_cons]; omega⟩)
          | _ => .error .expectedEvalEnd
      | _ => .error .expectedEvalName

mutual

/-- `Parser.value` (main.py 91-106): dispatch on the current token kind; the
end-of-input check `self.position >= len(self.tokens)` guards this function
only. -/
def value (c : Consts) :
    (ts : List Tok) → Except ParseErr (Value × {r : List Tok // r.length ≤ ts.length})
  | [] => .error .unexpectedEndOfInput
  | (k, s) :: rest =>
    match k with
    | .NUMBER => .ok (.int (pyInt s), ⟨rest, by simp only [List.length_cons]; omega⟩)
    | .STRING => .ok (.str (pyStrip s), ⟨rest, by simp only [List.length_cons]; omega⟩)
    | .ARRAY_START => array c ((k, s) :: rest)
    | .EVAL_START => evaluation c ((k, s) :: rest)
    | _ => .error (.unexpectedToken s)
termination_by ts => (ts.length, 1)

/-- `Parser.array` (main.py 108-122): skip the ARRAY_START token
(`self.position += 1`) and enter the element loop.  An empty input would put
the cursor past the end, making the first `self.value()` call inside the loop
fail with the end-of-input error, which is what the `[]` case returns
directly. -/
def array (c : Consts) :
    (ts : List Tok) → Except ParseErr (Value × {r : List Tok // r.length ≤ ts.length})
  | [] => .error .unexpectedEndOfInput
  | _ :: rest =>
    match array_loop c [] rest with
    | .error e => .error e
    | .ok (v, ⟨r, hr⟩) => .ok (v, ⟨r, by simp only [List.length_cons]; omega⟩)
termination_by ts => (ts.length, 0)

/-- The `while True` element loop of `Parser.array`: parse one value, append
it to `items`, then look at the next token: COMMA continues the loop,
ARRAY_END breaks and returns the items; anything else is an error, and a
missing token is an IndexError (main.py line 113 indexes unguarded). -/
def array_loop (c : Consts) (items : List Value) (ts : List Tok) :
    Except ParseErr (Value × {r : List Tok // r.length ≤ ts.length}) :=
  match value c ts with
  | .error e => .error e
  | .ok (v, ⟨r, hr⟩) =>
    match r, hr with
    | [], _ => .error .indexError
    | (k, s) :: r2, hr =>
      match k with
      | .COMMA =>
        match array_loop c (items ++ [v]) r2 with
        | .error e => .error e
        | .ok (v2, ⟨r3, hr3⟩) =>
          .ok (v2, ⟨r3, by simp only [List.length_cons] at hr; omega⟩)
      | .ARRAY_END =>
        .ok (.arr (items ++ [v]), ⟨r2, by simp only [List.length_cons] at hr; omega⟩)
      | _ => .error .expectedCommaOrArrayEnd
termination_by (ts.length, 3)

end

/-- `Parser.declaration` (main.py 73-89): NAME, ASSIGN, a value, SEMICOLON;
then record the binding in `self.constants` and return the (name, value)
pair.  The returned suffix is strictly shorter, which drives the termination
of the parse loop. -/
def declaration (c : Consts) :
    (ts : List Tok) →
      Except ParseErr ((String × Value) × Consts × {r : List Tok // r.length < ts.length})
  | [] => .error .indexError
  | (k, name) :: r1 =>
    match k with
    | .NAME =>
      match r1 with
      | [] => .error .indexError
      | (k2, _) :: r2 =>
        match k2 with
        | .ASSIGN =>
          match value c r2 with
          | .error e => .error e
          | .ok (v, ⟨r3, h3⟩) =>
            match r3, h3 with
            | [], _ => .error .indexError
            | (k3, _) :: r4, h3 =>
              match k3 with
              | .SEMICOLON =>
                .ok ((name, v), upsert c name v,
                  ⟨r4, by simp only [List.length_cons] at h3 ⊢; omega⟩)
              | _ => .error .expectedSemicolon
        | _ => .error .expectedAssign
    | _ => .error .expectedName

/-- The `while self.position < len(self.tokens)` loop of `Parser.parse`
(main.py 68-71): `acc` holds `self.ast` in order. -/
def declLoop (c : Consts) (acc : List (String × Value)) :
    (ts : List Tok) → Except ParseErr (List (String × Value) × Consts)
  | [] => .ok (acc, c)
  | t :: ts' =>
    match declaration c (t :: ts') with
    | .error e => .error e
    | .ok (d, c', ⟨r, hr⟩) => declLoop c' (acc ++ [d]) r
termination_by ts => ts.length

/-- `Parser.parse` on a token sequence, returning the ast together with the
final `self.constants` (main() reads both from the parser instance). -/
def parse (ts : List Tok) : Except ParseErr (List (String × Value) × Consts) :=
  declLoop [] [] ts

/-- `Parser.value` with the termination bookkeeping erased from the result. -/
def valueR (c : Consts) (ts : List Tok) : Except ParseErr (Value × List Tok) :=
  match value c ts with
  | .error e => .error e
  | .ok (v, r) => .ok (v, r.val)

/-- The binding a name would receive from the most recent of its declarations
in a declaration sequence (none when the name was never declared). -/
def lastBinding (ds : List (String × Value)) (name : String) : Option Value :=
  List.lookup name ds.reverse

/-
Heap-passing refinement of the parser.  Python lists are mutable objects:
`Parser.array` builds a fresh list object and `Parser.evaluation` returns
`self.constants[name]` itself, so a declaration produced through an
evaluation reference and the table binding it was resolved from are the SAME
object.  To reason about that object identity, this second embedding gives
arrays explicit heap addresses: an `HVal` is an immutable scalar or a
reference into a heap of arrays.  Mutating a Python list in place is
`List.set` on the heap cell; a deep copy would have produced distinct
addresses, sharing produces equal ones.
-/

/-- Parser values with Python object identity: ints and strings are immutable
scalars, a list value is an address into the heap. -/
inductive HVal where
  | int (n : Nat)
  | str (s : String)
  | ref (a : Nat)
deriving DecidableEq

/-- The store of list objects; the address of a cell is its index. -/
abbrev Heap := List (List HVal)

abbrev HConsts := List (String × HVal)

/-- Reading through a list value, as Python does when it uses the list bound
to a name: only references dereference. -/
def hDeref (heap : Heap) : HVal → Option (List HVal)
  | .ref a => heap[a]?
  | _ => none

/-- `Parser.evaluation` in the heap model: identical control flow to
`evaluation`, and on success the table binding itself is returned —
`return self.constants[name]` (main.py line 136) performs no copy, so a
reference value keeps its address. -/
def hEvaluation (c : HConsts) (heap : Heap) :
    (ts : List Tok) →
      Except ParseErr (HVal × Heap × {r : List Tok // r.length ≤ ts.length})
  | [] => .error .indexError
  | _ :: rest =>
    match rest with
    | [] => .error .indexError
    | (k, name) :: rest1 =>
      match k with
      | .NAME =>
        match rest1 with
        | [] => .error .indexError
        | (k2, _) :: rest2 =>
          match k2 with
          | .EVAL_END =>
            match List.lookup name c with
            | none => .error (.undefinedConstant name)
            | some v => .ok (v, heap, ⟨rest2, by simp only [List.length_cons]; omega⟩)
          | _ => .error .expectedEvalEnd
      | _ => .error .expectedEvalName

mutual

/-- `Parser.value` in the heap model. -/
def hValue (c : HConsts) (heap : Heap) :
    (ts : List Tok) →
      Except ParseErr (HVal × Heap × {r : List Tok // r.length ≤ ts.length})
  | [] => .error .unexpectedEndOfInput
  | (k, s) :: rest =>
    match k with
    | .NUMBER => .ok (.int (pyInt s), heap, ⟨rest, by simp only [List.length_cons]; omega⟩)
    | .STRING => .ok (.str (pyStrip s), heap, ⟨rest, by simp only [List.length_cons]; omega⟩)
    | .ARRAY_START => hArray c heap ((k, s) :: rest)
    | .EVAL_START => hEvaluation c heap ((k, s) :: rest)
    | _ => .error (.unexpectedToken s)
termination_by ts => (ts.length, 1)

/-- `Parser.array` in the heap model: `items = []` allocates a fresh list
object before any element is parsed; the loop then appends to that cell in
place, and the value of the array expression is the reference. -/
def hArray (c : HConsts) (heap : Heap) :
    (ts : List Tok) →
      Except ParseErr (HVal × Heap × {r : List Tok // r.length ≤ ts.length})
  | [] => .error .unexpectedEndOfInput
  | _ :: rest =>
    match hArrayLoop c (heap ++ [[]]) heap.length rest with
    | .error e => .error e
    | .ok (v, heap2, ⟨r, hr⟩) =>
      .ok (v, heap2, ⟨r, by simp only [List.length_cons]; omega⟩)
termination_by ts => (ts.length, 0)

/-- The element loop of `Parser.array` in the heap model: `addr` is the
address of the list object under construction; `items.append(self.value())`
is an in-place extension of that cell. -/
def hArrayLoop (c : HConsts) (heap : Heap) (addr : Nat) (ts : List Tok) :
    Except ParseErr (HVal × Heap × {r : List Tok // r.length ≤ ts.length}) :=
  match hValue c heap ts with
  | .error e => .error e
  | .ok (v, heap1, ⟨r, hr⟩) =>
    match r, hr with
    | [], _ => .error .indexError
    | (k, s) :: r2, hr =>
      match k with
      | .COMMA =>
        match hArrayLoop c (heap1.set addr ((heap1[addr]?.getD []) ++ [v])) addr r2 with
        | .error e => .error e
        | .ok (v2, heap2, ⟨r3, hr3⟩) =>
          .ok (v2, heap2, ⟨r3, by simp only [List.length_cons] at hr; omega⟩)
      | .ARRAY_END =>
        .ok (.ref addr, heap1.set addr ((heap1[addr]?.getD []) ++ [v]),
          ⟨r2, by simp only [List.length_cons] at hr; omega⟩)
      | _ => .error .expectedCommaOrArrayEnd
termination_by (ts.length, 3)

end

/-- `Parser.declaration` in the heap model. -/
def hDeclaration (c : HConsts) (heap : Heap) :
    (ts : List Tok) →
      Except ParseErr ((String × HVal) × HConsts × Heap × {r : List Tok // r.length < ts.length})
  | [] => .error .indexError
  | (k, name) :: r1 =>
    match k with
    | .NAME =>
      match r1 with
      | [] => .error .indexError
      | (k2, _) :: r2 =>
        match k2 with
        | .ASSIGN =>
          match hValue c heap r2 with
          | .error e => .error e
          | .ok (v, heap1, ⟨r3, h3⟩) =>
            match r3, h3 with
            | [], _ => .error .indexError
            | (k3, _) :: r4, h3 =>
              match k3 with
              | .SEMICOLON =>
                .ok ((name, v), (name, v) :: c, heap1,
                  ⟨r4, by simp only [List.length_cons] at h3 ⊢; omega⟩)
              | _ => .error .expectedSemicolon
        | _ => .error .expectedAssign
    | _ => .error .expectedName

/-- The parse loop in the heap model. -/
def hDeclLoop (c : HConsts) (heap : Heap) (acc : List (String × HVal)) :
    (ts : List Tok) → Except ParseErr (List (String × HVal) × HConsts × Heap)
  | [] => .ok (acc, c, heap)
  | t :: ts' =>
    match hDeclaration c heap (t :: ts') with
    | .error e => .error e
    | .ok (d, c', heap', ⟨r, hr⟩) => hDeclLoop c' heap' (acc ++ [d]) r
termination_by ts => ts.length

/-- `Parser.parse` in the heap model, starting from an empty heap. -/
def hparse (ts : List Tok) : Except ParseErr (List (String × HVal) × HConsts × Heap) :=
  hDeclLoop [] [] [] ts

/-! ### Helper lemmas -/

theorem findCommentEnd_append {body : List Char} (b : List Char)
    (hb : hasCommentEnd body = false) :
    findCommentEnd (body ++ '*' :: '/' :: b) = some b := by
  induction body with
  | nil => simp [findCommentEnd]
  | cons c rest ih =>
    rw [hasCommentEnd] at hb
    simp only [Bool.or_eq_false_iff, Bool.and_eq_false_iff] at hb
    obtain ⟨hb1, hb2⟩ := hb
    rw [List.cons_append, findCommentEnd]
    cases rest with
    | nil =>
      simp only [List.nil_append]
      rw [if_neg, findCommentEnd]
      · simp [findCommentEnd]
      · simp
    | cons c2 rest2 =>
      rw [if_neg]
      · exact ih hb2
      · simp at hb1 ⊢
        intro hc
        rcases hb1 with h | h
        · exact absurd hc h
        · intro h2
          exact absurd h2 h

theorem takeWhile_append_stop {α : Type} {p : α → Bool} {xs : List α} {y : α}
    (ys : List α) (hxs : ∀ x ∈ xs, p x = true) (hy : p y = false) :
    (xs ++ y :: ys).takeWhile p = xs := by
  induction xs with
  | nil => simp [List.takeWhile_cons, hy]
  | cons c t ih =>
    rw [List.cons_append, List.takeWhile_cons, if_pos (hxs c (by simp))]
    rw [ih (fun x hx => hxs x (by simp [hx]))]

theorem matchString_closes {inner : List Char} (rest : List Char)
    (h : ∀ c ∈ inner, c ≠ '\'') :
    matchString (inner ++ '\'' :: rest) = some inner.length := by
  unfold matchString
  rw [takeWhile_append_stop rest (by simpa using h) (by simp)]
  simp [List.drop_left]

theorem match1_string {inner : List Char} (rest : List Char)
    (h : ∀ c ∈ inner, c ≠ '\'') :
    match1 ('\'' :: (inner ++ '\'' :: rest)) = some (.STRING, inner.length + 2) := by
  unfold match1
  simp [matchString_closes rest h, isDigit09]

theorem dropWhile_no_quote {r : List Char} (h : ∀ c ∈ r, c ≠ '\'') :
    r.dropWhile (fun c => c = '\'') = r := by
  cases r with
  | nil => simp
  | cons x xs =>
    rw [List.dropWhile_cons, if_neg]
    simp only [decide_eq_true_eq]
    exact h x (by simp)

theorem match1_total (c : Char) (cs : List Char) : (match1 (c :: cs)).isSome := by
  unfold match1
  split <;> try simp_all
  split_ifs <;> try simp
  · split <;> simp
  · rename_i h1 h2 h3 h4 h5
    exact absurd h4 (by simp [isSkipChar, h5])

theorem lexLoop_not_regexFail :
    ∀ (n : Nat) (cs : List Char) (acc : List Tok),
      cs.length ≤ n → lexLoop acc cs ≠ .error .regexFail := by
  intro n
  induction n with
  | zero =>
    intro cs acc hle
    have : cs = [] := List.length_eq_zero.mp (by omega)
    subst this
    simp [lexLoop]
  | succ n ih =>
    intro cs acc hle
    cases cs with
    | nil => simp [lexLoop]
    | cons c cs' =>
      simp only [List.length_cons] at hle
      rw [lexLoop]
      split
      · rename_i h
        exact absurd (match1_total c cs') (by simp [h])
      · rename_i k nlen h
        have hpos := match1_pos h
        split_ifs <;> try simp
        · split <;> try simp
          split <;> try simp
          rename_i c2 cs2 hr rest2 hf
          have h2 := findCommentEnd_length hf
          have h3 := congrArg List.length hr
          simp only [List.length_drop, List.length_cons] at h3
          simp only [List.length_cons] at h2
          apply ih
          omega
        · apply ih
          simp only [List.length_drop, List.length_cons]
          omega
        · apply ih
          simp only [List.length_drop, List.length_cons]
          omega

theorem lexLoop_step_tok (acc : List Tok) {cs : List Char} {k : TokKind} {n : Nat}
    (hm : match1 cs = some (k, n))
    (h1 : k ≠ .COMMENT_START) (h2 : k ≠ .COMMENT_END) (h3 : k ≠ .SKIP)
    (h4 : k ≠ .MISMATCH) :
    lexLoop acc cs = lexLoop ((k, String.mk (cs.take n)) :: acc) (cs.drop n) := by
  cases cs with
  | nil => simp [match1] at hm
  | cons c cs' =>
    rw [lexLoop]
    split
    · rename_i heq
      rw [hm] at heq
      simp at heq
    · rename_i k' n' heq
      rw [hm] at heq
      injection heq with heq1
      injection heq1 with hk hn
      subst hk
      subst hn
      rw [if_neg h1, if_neg h2, if_neg h3, if_neg h4]

theorem lexLoop_step_comment (acc : List Tok) {cs : List Char} {n : Nat}
    (c2 : Char) (cs2 rest2 : List Char)
    (hm : match1 cs = some (.COMMENT_START, n))
    (hd : cs.drop n = c2 :: cs2)
    (hf : findCommentEnd (c2 :: cs2) = some rest2) :
    lexLoop acc cs = lexLoop acc rest2 := by
  cases cs with
  | nil => simp [match1] at hm
  | cons c cs' =>
    rw [lexLoop]
    split
    · rename_i heq
      rw [hm] at heq
      simp at heq
    · rename_i k' n' heq
      rw [hm] at heq
      injection heq with heq1
      injection heq1 with hk hn
      subst hk
      subst hn
      rw [if_pos rfl]
      split
      · rename_i hr
        rw [hd] at hr
        simp at hr
      · rename_i c2' cs2' hr
        rw [hd] at hr
        injection hr with h21 h22
        subst h21
        subst h22
        split
        · rename_i hf'
          rw [hf] at hf'
          simp at hf'
        · rename_i rest2' hf'
          rw [hf] at hf'
          injection hf' with hr2
          subst hr2
          rfl

theorem declaration_consts {c : Consts} {ts : List Tok} {d : String × Value}
    {c' : Consts} {r : {r : List Tok // r.length < ts.length}}
    (h : declaration c ts = .ok (d, c', r)) : c' = (d.1, d.2) :: c := by
  unfold declaration at h
  repeat' split at h
  all_goals simp_all [upsert]
  obtain ⟨hd, hc, -⟩ := h
  rw [← hc, ← hd]

theorem declLoop_inv :
    ∀ (n : Nat) (ts : List Tok) (c : Consts) (acc ds : List (String × Value)) (fc : Consts),
      ts.length ≤ n → declLoop c acc ts = .ok (ds, fc) →
        ∃ new, ds = acc ++ new ∧ fc = new.reverse ++ c := by
  intro n
  induction n with
  | zero =>
    intro ts c acc ds fc hle h
    have : ts = [] := List.length_eq_zero.mp (by omega)
    subst this
    rw [declLoop] at h
    simp at h
    exact ⟨[], by simp [h.1.symm, h.2.symm]⟩
  | succ n ih =>
    intro ts c acc ds fc hle h
    cases ts with
    | nil =>
      rw [declLoop] at h
      simp at h
      exact ⟨[], by simp [h.1.symm, h.2.symm]⟩
    | cons t ts' =>
      rw [declLoop] at h
      split at h
      · exact absurd h (by simp)
      · rename_i d c' r hr heq
        have hc' := declaration_consts heq
        have hlen : r.length ≤ n := by
          have := hr
          simp at this ⊢
          omega
        obtain ⟨new', hds, hfc⟩ := ih r c' (acc ++ [d]) ds fc hlen h
        refine ⟨d :: new', ?_, ?_⟩
        · simp [hds]
        · simp [hfc, hc']

theorem stripQuotes_delim {inner : List Char} (h : ∀ c ∈ inner, c ≠ '\'') :
    stripQuotes ('\'' :: (inner ++ ['\''])) = inner := by
  unfold stripQuotes
  rw [List.dropWhile_cons, if_pos (by simp)]
  cases inner with
  | nil => simp
  | cons c t =>
    rw [List.cons_append, List.dropWhile_cons,
      if_neg (by simpa using h c (by simp))]
    rw [show (c :: (t ++ ['\''])).reverse = '\'' :: (c :: t).reverse by simp]
    rw [List.dropWhile_cons, if_pos (by simp)]
    rw [dropWhile_no_quote (by
      intro d hd
      apply h d
      simp only [List.mem_cons]
      simp at hd
      tauto)]
    simp

/-! ### Claims -/

/-- The token sequence of the input `A := <<1>>; B := $(A);`. -/
def c1toks : List Tok :=
  [(.NAME, "A"), (.ASSIGN, ":="), (.ARRAY_START, "<<"), (.NUMBER, "1"),
   (.ARRAY_END, ">>"), (.SEMICOLON, ";"),
   (.NAME, "B"), (.ASSIGN, ":="), (.EVAL_START, "$("), (.NAME, "A"),
   (.EVAL_END, ")"), (.SEMICOLON, ";")]

/-- C1: the claim asserts that the Value recorded for a declaration resolved
through an evaluation reference is a deep copy of the referenced binding.  In
the code it is not a copy at all: `evaluation` returns `self.constants[name]`
itself (main.py line 136), so on `A := <<1>>; B := $(A);` the declaration of
B and the symbol-table binding of A hold the same list object (here: the same
heap address 0), and mutating the array obtained via the reference is visible
through A's binding — the opposite of the claimed frame property. -/
theorem c1_eval_reference_aliases :
    hparse c1toks =
      .ok ([(("A" : String), HVal.ref 0), (("B" : String), HVal.ref 0)],
           [(("B" : String), HVal.ref 0), (("A" : String), HVal.ref 0)],
           [[HVal.int (pyInt "1")]]) ∧
    hDeref [[HVal.int (pyInt "1")]] (HVal.ref 0) = some [HVal.int (pyInt "1")] ∧
    hDeref (List.set [[HVal.int (pyInt "1")]] 0 [HVal.int 99]) (HVal.ref 0) =
      some [HVal.int 99] := by
  refine ⟨?_, by simp [hDeref], by simp [hDeref]⟩
  simp [hparse, c1toks, hDeclLoop, hDeclaration, hValue, hArray, hArrayLoop, hEvaluation]

/-- C2: the claim asserts that every position where end-of-input meets an
expected token yields the typed `UnexpectedEndOfInput` error.  The code only
checks this in `Parser.value` (main.py line 92); after a declaration name,
after a parsed value while awaiting the semicolon, inside an array awaiting
a comma or array-end, and inside an evaluation reference, the bare access
`self.tokens[self.position]` raises an uncaught IndexError instead.  Only the
value-position case (last conjunct) produces the typed error. -/
theorem c2_eoi_raises_index_error (nm a n ar ev : String) :
    parse [(.NAME, nm)] = .error .indexError ∧
    parse [(.NAME, nm), (.ASSIGN, a), (.NUMBER, n)] = .error .indexError ∧
    parse [(.NAME, nm), (.ASSIGN, a), (.ARRAY_START, ar), (.NUMBER, n)] =
      .error .indexError ∧
    parse [(.NAME, nm), (.ASSIGN, a), (.EVAL_START, ev)] = .error .indexError ∧
    parse [(.NAME, nm), (.ASSIGN, a), (.EVAL_START, ev), (.NAME, nm)] =
      .error .indexError ∧
    parse [(.NAME, nm), (.ASSIGN, a)] = .error .unexpectedEndOfInput := by
  refine ⟨?_, ?_, ?_, ?_, ?_, ?_⟩ <;>
    simp [parse, declLoop, declaration, value, array, array_loop, evaluation]

/-- C3: redeclaration with an intervening reference: on
`A := s1; B := $(A); A := s2; C := $(A);` the parse succeeds, the ast keeps
all four declarations in source order (both declarations of A present), the
reference inside B resolves to the first value of A and the reference inside
C to the second, and the final symbol table holds the latest bindings. -/
theorem c3_resolve_then_shadow (s1 s2 : String) :
    parse [(.NAME, "A"), (.ASSIGN, ":="), (.NUMBER, s1), (.SEMICOLON, ";"),
           (.NAME, "B"), (.ASSIGN, ":="), (.EVAL_START, "$("), (.NAME, "A"),
           (.EVAL_END, ")"), (.SEMICOLON, ";"),
           (.NAME, "A"), (.ASSIGN, ":="), (.NUMBER, s2), (.SEMICOLON, ";"),
           (.NAME, "C"), (.ASSIGN, ":="), (.EVAL_START, "$("), (.NAME, "A"),
           (.EVAL_END, ")"), (.SEMICOLON, ";")] =
      .ok ([(("A" : String), Value.int (pyInt s1)),
            (("B" : String), Value.int (pyInt s1)),
            (("A" : String), Value.int (pyInt s2)),
            (("C" : String), Value.int (pyInt s2))],
           [(("C" : String), Value.int (pyInt s2)),
            (("A" : String), Value.int (pyInt s2)),
            (("B" : String), Value.int (pyInt s1)),
            (("A" : String), Value.int (pyInt s1))]) := by
  simp [parse, declLoop, declaration, value, evaluation, upsert]

/-- C4: an array-start immediately followed by an array-end at a value
position fails through the expected-value path with `UnexpectedToken`
carrying the array-end text, never producing an empty Array: the element
loop starts with `self.value()`, which rejects ARRAY_END as a value.  The
second conjunct is the boundary input `A := <<>>;` of the claim. -/
theorem c4_empty_array_rejected :
    (∀ (c : Consts) (s t : String) (rest : List Tok),
        valueR c ((.ARRAY_START, s) :: (.ARRAY_END, t) :: rest) =
          .error (.unexpectedToken t)) ∧
    parse [(.NAME, "A"), (.ASSIGN, ":="), (.ARRAY_START, "<<"),
           (.ARRAY_END, ">>"), (.SEMICOLON, ";")] =
      .error (.unexpectedToken ">>") := by
  constructor
  · intro c s t rest
    simp [valueR, value, array, array_loop]
  · simp [parse, declLoop, declaration, value, array, array_loop]

/-- C5: comment transparency.  Whenever the scanner meets a comment opener
whose body (everything up to the first closing marker) contains no closing
marker of its own, the whole span — body characters are arbitrary, including
characters that are invalid tokens elsewhere and further comment openers —
is consumed without emitting a token and without an error, and the scan
continues exactly as if the comment span were absent. -/
theorem c5_comment_transparent (acc : List Tok) (body b : List Char)
    (hb : hasCommentEnd body = false) :
    lexLoop acc ('/' :: '*' :: (body ++ '*' :: '/' :: b)) = lexLoop acc b := by
  have hm : match1 ('/' :: '*' :: (body ++ '*' :: '/' :: b)) =
      some (.COMMENT_START, 2) := rfl
  have hfind := findCommentEnd_append b hb
  cases body with
  | nil =>
    exact lexLoop_step_comment acc '*' ('/' :: b) b hm (by simp) (by simpa using hfind)
  | cons c t =>
    exact lexLoop_step_comment acc c (t ++ '*' :: '/' :: b) b hm (by simp)
      (by simpa using hfind)

theorem c5_comment_transparent_witness :
    hasCommentEnd ['>', '$', '/', '*'] = false ∧
    lexLoop [] ('/' :: '*' :: ((['>', '$', '/', '*']) ++ '*' :: '/' :: [';'])) =
      lexLoop [] [';'] :=
  ⟨by decide, c5_comment_transparent [] ['>', '$', '/', '*'] [';'] (by decide)⟩

/-- C6: for a string-literal token (whose lexeme is an opening quote, a run
of non-quote characters, and a closing quote), the parsed Text value is
exactly the inner run: `value.strip` removes exactly the two delimiter
characters and never touches the inner text, which contains no quote. -/
theorem c6_string_strip_exact (c : Consts) (inner : List Char) (rest : List Tok)
    (h : ∀ ch ∈ inner, ch ≠ '\'') :
    valueR c ((.STRING, String.mk ('\'' :: (inner ++ ['\'']))) :: rest) =
      .ok (.str (String.mk inner), rest) := by
  simp [valueR, value, pyStrip, String.toList, stripQuotes_delim h]

theorem c6_string_strip_exact_witness :
    (∀ ch ∈ (['a', 'b'] : List Char), ch ≠ '\'') ∧
    valueR [] [(.STRING, String.mk ('\'' :: ((['a', 'b'] : List Char) ++ ['\''])))] =
      .ok (.str (String.mk ['a', 'b']), []) :=
  ⟨by decide, c6_string_strip_exact [] ['a', 'b'] [] (by decide)⟩

/-- C7: an evaluation reference to a name with no earlier declaration is the
typed `UndefinedConstant` error carrying that name; the table is consulted
as it stands at the point of reference (here it holds only A, so B is
undefined even though the input could declare it later). -/
theorem c7_undefined_constant (a1 n1 sc1 a2 e1 e2 sc2 : String) :
    parse [(.NAME, "A"), (.ASSIGN, a1), (.NUMBER, n1), (.SEMICOLON, sc1),
           (.NAME, "X"), (.ASSIGN, a2), (.EVAL_START, e1), (.NAME, "B"),
           (.EVAL_END, e2), (.SEMICOLON, sc2)] =
      .error (.undefinedConstant "B") := by
  simp [parse, declLoop, declaration, value, evaluation, upsert, List.lookup]

/-- C8: tokenization is total with typed errors: every input either produces
a token sequence or fails with one of the three lexical errors; the
regex-failed-to-match branch (main.py line 44) is unreachable because the
SKIP and MISMATCH alternatives jointly match every character (the dot of
MISMATCH matches everything except the newline, and the newline is matched
by SKIP). -/
theorem c8_tokenize_total (s : String) :
    (∃ ts, generate_tokens s = .ok ts) ∨
    generate_tokens s = .error .unterminatedComment ∨
    generate_tokens s = .error .unmatchedCommentEnd ∨
    (∃ t, generate_tokens s = .error (.invalidChar t)) := by
  have hnf := lexLoop_not_regexFail s.toList.length s.toList [] le_rfl
  unfold generate_tokens
  match hres : lexLoop [] s.toList with
  | .ok ts => exact Or.inl ⟨ts, rfl⟩
  | .error e =>
    cases e with
    | unterminatedComment => exact Or.inr (Or.inl rfl)
    | regexFail => exact absurd hres hnf
    | unmatchedCommentEnd => exact Or.inr (Or.inr (Or.inl rfl))
    | invalidChar t => exact Or.inr (Or.inr (Or.inr ⟨t, rfl⟩))

/-- C9: after a successful parse, the symbol table maps a name to a value
exactly when the name was declared, and then to the value of its most recent
declaration (looking the name up in the reversed declaration sequence).  The
invariant is established per-declaration by `declLoop_inv`, which holds for
every intermediate state of the loop; reads of the table happen only in
`evaluation` and the only write is the upsert in `declaration`. -/
theorem c9_symbol_table_invariant (ts : List Tok) (ds : List (String × Value))
    (fc : Consts) (h : parse ts = .ok (ds, fc)) (name : String) :
    List.lookup name fc = lastBinding ds name := by
  obtain ⟨new, hds, hfc⟩ := declLoop_inv ts.length ts [] [] ds fc le_rfl h
  simp at hds
  subst hds
  simp at hfc
  subst hfc
  rfl

theorem c9_symbol_table_invariant_witness :
    parse [(.NAME, "A"), (.ASSIGN, ":="), (.NUMBER, "1"), (.SEMICOLON, ";"),
           (.NAME, "A"), (.ASSIGN, ":="), (.NUMBER, "2"), (.SEMICOLON, ";")] =
      .ok ([(("A" : String), Value.int (pyInt "1")),
            (("A" : String), Value.int (pyInt "2"))],
           [(("A" : String), Value.int (pyInt "2")),
            (("A" : String), Value.int (pyInt "1"))]) ∧
    List.lookup "A"
        [(("A" : String), Value.int (pyInt "2")), (("A" : String), Value.int (pyInt "1"))] =
      lastBinding [(("A" : String), Value.int (pyInt "1")),
                   (("A" : String), Value.int (pyInt "2"))] "A" := by
  have h : parse [(.NAME, "A"), (.ASSIGN, ":="), (.NUMBER, "1"), (.SEMICOLON, ";"),
           (.NAME, "A"), (.ASSIGN, ":="), (.NUMBER, "2"), (.SEMICOLON, ";")] =
      .ok ([(("A" : String), Value.int (pyInt "1")),
            (("A" : String), Value.int (pyInt "2"))],
           [(("A" : String), Value.int (pyInt "2")),
            (("A" : String), Value.int (pyInt "1"))]) := by
    simp [parse, declLoop, declaration, value, upsert]
  exact ⟨h, c9_symbol_table_invariant _ _ _ h "A"⟩

/-- C10: a string literal may span lines and contain every character other
than a single quote: on an opening quote followed by a quote-free run and a
closing quote, the scanner emits one STRING token whose lexeme is the
delimited run (newlines and characters invalid elsewhere included), resumes
after the closing quote, and stripping the delimiters preserves the inner
run verbatim. -/
theorem c10_string_spans_lines (acc : List Tok) (inner rest : List Char)
    (h : ∀ ch ∈ inner, ch ≠ '\'') :
    lexLoop acc ('\'' :: (inner ++ '\'' :: rest)) =
      lexLoop ((.STRING, String.mk ('\'' :: (inner ++ ['\'']))) :: acc) rest ∧
    pyStrip (String.mk ('\'' :: (inner ++ ['\'']))) = String.mk inner := by
  constructor
  · have htake : ('\'' :: (inner ++ '\'' :: rest)).take (inner.length + 2) =
        '\'' :: (inner ++ ['\'']) := by
      rw [show '\'' :: (inner ++ '\'' :: rest) = ('\'' :: (inner ++ ['\''])) ++ rest by simp]
      exact List.take_left' (by simp)
    have hdrop : ('\'' :: (inner ++ '\'' :: rest)).drop (inner.length + 2) = rest := by
      rw [show '\'' :: (inner ++ '\'' :: rest) = ('\'' :: (inner ++ ['\''])) ++ rest by simp]
      exact List.drop_left' (by simp)
    rw [lexLoop_step_tok acc (match1_string rest h) (by decide) (by decide)
      (by decide) (by decide), htake, hdrop]
  · simp [pyStrip, String.toList, stripQuotes_delim h]

theorem c10_string_spans_lines_witness :
    (∀ ch ∈ (['a', '\n', '>'] : List Char), ch ≠ '\'') ∧
    (lexLoop [] ('\'' :: ((['a', '\n', '>'] : List Char) ++ '\'' :: [])) =
       lexLoop [(.STRING, String.mk ('\'' :: ((['a', '\n', '>'] : List Char) ++ ['\''])))] [] ∧
     pyStrip (String.mk ('\'' :: ((['a', '\n', '>'] : List Char) ++ ['\'']))) =
       String.mk ['a', '\n', '>']) :=
  ⟨by decide, c10_string_spans_lines [] ['a', '\n', '>'] [] (by decide)⟩

